import Mathlib

/-!
Shallow embedding of the client-side order-tracking store
(`src/frontend/src/store/orderStore.js`) of the QuantumEdge frontend.

The store keeps an insertion-ordered list of order records, refreshed by a
timer-driven poller: each tick computes the non-terminal ("active") records,
issues one status-fetch request per active record, and when the settled
results arrive it overwrites each matching cached record wholesale with the
response body.  `startPolling` / `stopPolling` guard a single shared
`setInterval` handle.

The event-loop behaviour (timer callbacks and network-response callbacks
interleaving on one thread) is modelled by an explicit step function over a
`World` that carries the store state together with the batches of requests
still in flight and the bookkeeping of created timer handles.
-/

/-- An order record as held in the store's `orders` array.  `id` is the
server-issued identifier; `status` is the status string; the remaining
fields stand for the rest of the record body (quantities, parent reference,
venue flags) so that wholesale-replacement semantics are observable. -/
structure Order where
  id : Nat
  status : String
  quantity : Int
  quantityFilled : Int
  parentId : Option Nat
  deriving Repr, DecidableEq

/-- The zustand store state: the `orders` array and the `pollingInterval`
field (the `setInterval` handle, `null` when the poller is idle). -/
structure OrderStore where
  orders : List Order
  pollingInterval : Option Nat
  deriving Repr, DecidableEq

/-- The store state together with the event-loop environment: request
batches issued by poll ticks and not yet settled, the source of fresh
`setInterval` handles, the handles created and not yet cleared, and a
count of all `setInterval` calls ever made. -/
structure World where
  store : OrderStore
  inflight : List (List Nat)
  nextHandle : Nat
  activeTimers : List Nat
  timersCreated : Nat
  deriving Repr, DecidableEq

/-- The terminal status strings of `pollOrders`:
`['FILLED', 'CANCELED', 'REJECTED', 'ERROR']`. -/
def terminalStatuses : List String := ["FILLED", "CANCELED", "REJECTED", "ERROR"]

/-- A record is active when its status is not terminal, as in the filter
`o => !['FILLED', 'CANCELED', 'REJECTED', 'ERROR'].includes(o.status)`. -/
def isActive (o : Order) : Bool := ! terminalStatuses.contains o.status

/-- The `activeOrders` subset computed at the start of a poll tick. -/
def activeOrders (orders : List Order) : List Order := orders.filter isActive

/-- The duplicate-avoiding push of `addOrder`:
`if (!draft.orders.some(o => o.id === newOrder.id)) draft.orders.push(newOrder)`. -/
def addOrderList (orders : List Order) (newOrder : Order) : List Order :=
  if orders.any (fun o => o.id == newOrder.id) then orders
  else orders ++ [newOrder]

/-- `startPolling`: if `pollingInterval` is set this is a no-op; otherwise a
fresh `setInterval` handle is created and stored. -/
def startPolling (w : World) : World :=
  match w.store.pollingInterval with
  | some _ => w
  | none =>
    { w with
      store := { w.store with pollingInterval := some w.nextHandle },
      nextHandle := w.nextHandle + 1,
      activeTimers := w.activeTimers ++ [w.nextHandle],
      timersCreated := w.timersCreated + 1 }

/-- `stopPolling`: if `pollingInterval` is set, `clearInterval` it and set
the field to `null`; otherwise a no-op. -/
def stopPolling (w : World) : World :=
  match w.store.pollingInterval with
  | some h =>
    { w with
      store := { w.store with pollingInterval := none },
      activeTimers := w.activeTimers.filter (fun h2 => h2 ≠ h) }
  | none => w

/-- `addOrder`: push the new record unless its id is already present, then
call `startPolling`. -/
def addOrder (w : World) (newOrder : Order) : World :=
  startPolling
    { w with store := { w.store with orders := addOrderList w.store.orders newOrder } }

/-- The synchronous half of a `pollOrders` tick: compute `activeOrders`;
if empty, `stopPolling` and return with no requests; otherwise issue one
`getOrderStatus` request per active record (recorded as a pending batch of
order ids) and return the list of requested ids. -/
def pollTick (w : World) : World × List Nat :=
  let act := activeOrders w.store.orders
  if act.length == 0 then (stopPolling w, [])
  else
    let reqs := act.map (fun o => o.id)
    ({ w with inflight := w.inflight ++ [reqs] }, reqs)

/-- The outcome of one settled status-fetch request: `Except.ok u` is a
fulfilled response with body `u`; `Except.error ()` is a rejected one. -/
abbrev PollResult := Except Unit Order

/-- The per-result body of the `results.forEach` merge: a fulfilled result
overwrites the first cached record whose id equals the response body's id
(`findIndex`; skipped when `-1`), a rejected result only logs. -/
def mergeResult (orders : List Order) (res : PollResult) : List Order :=
  match res with
  | Except.ok updatedOrder =>
    match orders.findIdx? (fun o => o.id == updatedOrder.id) with
    | some i => orders.set i updatedOrder
    | none => orders
  | Except.error _ => orders

/-- The whole merge step applied when a batch's `Promise.allSettled`
resolves: fold the per-result merge over the results in order. -/
def mergeResults (orders : List Order) (results : List PollResult) : List Order :=
  results.foldl mergeResult orders

/-- Settlement of the `i`-th pending batch with one result per request:
the batch leaves the in-flight list and the merge step is applied to the
orders as they are at settlement time. -/
def resolveBatch (w : World) (i : Nat) (results : List PollResult) : World :=
  match w.inflight[i]? with
  | some batch =>
    if results.length = batch.length then
      { w with
        store := { w.store with orders := mergeResults w.store.orders results },
        inflight := w.inflight.eraseIdx i }
    else w
  | none => w

/-- One event-loop event: an `addOrder` call, a timer tick invoking
`pollOrders`, the settlement of a pending request batch, or a
`stopPolling` call. -/
inductive Act where
  | add (o : Order)
  | tick
  | resolve (i : Nat) (results : List PollResult)
  | stop
  deriving Repr

/-- The step function of the event loop.  A tick only happens while a
timer handle is set (the interval callback no longer fires after
`clearInterval`). -/
def step (w : World) (a : Act) : World :=
  match a with
  | Act.add o => addOrder w o
  | Act.tick => if w.store.pollingInterval.isSome then (pollTick w).1 else w
  | Act.resolve i results => resolveBatch w i results
  | Act.stop => stopPolling w

/-- The status-fetch requests a single event puts on the wire. -/
def stepRequests (w : World) (a : Act) : List Nat :=
  match a with
  | Act.tick => if w.store.pollingInterval.isSome then (pollTick w).2 else []
  | _ => []

/-- Run a sequence of events. -/
def run (w : World) (acts : List Act) : World := acts.foldl step w

/-- All status-fetch requests put on the wire along a sequence of events. -/
def runRequests (w : World) (acts : List Act) : List Nat :=
  match acts with
  | [] => []
  | a :: rest => stepRequests w a ++ runRequests (step w a) rest

/-- The store state at module load: empty cache, no timer. -/
def initStore : OrderStore := { orders := [], pollingInterval := none }

/-- The world at page load: fresh store, nothing in flight, no timers
created (handles start at 1, as `setInterval` handles are nonzero). -/
def initWorld : World :=
  { store := initStore, inflight := [], nextHandle := 1,
    activeTimers := [], timersCreated := 0 }

/-- A world is reachable when some event sequence leads to it from the
initial world. -/
def Reachable (w : World) : Prop := ∃ acts : List Act, run initWorld acts = w

/-! ### Basic facts about the single operations -/

theorem startPolling_orders (w : World) :
    (startPolling w).store.orders = w.store.orders := by
  unfold startPolling
  cases w.store.pollingInterval <;> rfl

theorem stopPolling_orders (w : World) :
    (stopPolling w).store.orders = w.store.orders := by
  unfold stopPolling
  cases w.store.pollingInterval <;> rfl

theorem stopPolling_pollingInterval (w : World) :
    (stopPolling w).store.pollingInterval = none := by
  unfold stopPolling
  cases h : w.store.pollingInterval
  · simpa using h
  · rfl

theorem startPolling_pollingInterval_isSome (w : World) :
    (startPolling w).store.pollingInterval.isSome := by
  unfold startPolling
  cases h : w.store.pollingInterval
  · rfl
  · simp [h]

theorem addOrder_orders (w : World) (o : Order) :
    (addOrder w o).store.orders = addOrderList w.store.orders o := by
  unfold addOrder
  rw [startPolling_orders]

theorem addOrder_pollingInterval_isSome (w : World) (o : Order) :
    (addOrder w o).store.pollingInterval.isSome :=
  startPolling_pollingInterval_isSome _

theorem pollTick_orders (w : World) :
    (pollTick w).1.store.orders = w.store.orders := by
  unfold pollTick
  by_cases h : (activeOrders w.store.orders).length == 0
  · simp only [h, if_pos]
    exact stopPolling_orders w
  · simp [h]

theorem pollTick_requests (w : World) :
    (pollTick w).2 = (activeOrders w.store.orders).map (fun o => o.id) := by
  unfold pollTick
  by_cases h : (activeOrders w.store.orders).length == 0
  · have h0 : activeOrders w.store.orders = [] := by
      simpa using List.eq_nil_of_length_eq_zero (by simpa using h)
    simp [h, h0]
  · simp [h]

theorem step_tick_orders (w : World) :
    (step w Act.tick).store.orders = w.store.orders := by
  unfold step
  by_cases h : w.store.pollingInterval.isSome
  · simp only [h, if_pos]
    exact pollTick_orders w
  · simp [h]

theorem resolveBatch_pollingInterval (w : World) (i : Nat) (rs : List PollResult) :
    (resolveBatch w i rs).store.pollingInterval = w.store.pollingInterval := by
  unfold resolveBatch
  cases w.inflight[i]? with
  | none => rfl
  | some batch =>
    by_cases h : rs.length = batch.length
    · simp [h]
    · simp [h]

/-! ### Recursion equations for the merge step -/

theorem mergeResult_error (orders : List Order) (e : Unit) :
    mergeResult orders (Except.error e) = orders := rfl

theorem mergeResult_ok_nil (u : Order) : mergeResult [] (Except.ok u) = [] := rfl

theorem mergeResult_ok_cons (u o : Order) (rest : List Order) :
    mergeResult (o :: rest) (Except.ok u)
      = if o.id == u.id then u :: rest else o :: mergeResult rest (Except.ok u) := by
  simp only [mergeResult, List.findIdx?_cons]
  by_cases h : (o.id == u.id) = true
  · simp [h]
  · simp only [h, if_false, List.findIdx?_succ]
    cases hfi : List.findIdx? (fun o2 => o2.id == u.id) rest with
    | none => simp
    | some j => simp [List.set]

theorem mergeResults_nil (orders : List Order) : mergeResults orders [] = orders := rfl

theorem mergeResults_cons (orders : List Order) (r : PollResult) (rest : List PollResult) :
    mergeResults orders (r :: rest) = mergeResults (mergeResult orders r) rest := rfl

/-! ### The merge step never changes the id sequence -/

theorem mergeResult_map_id (orders : List Order) (r : PollResult) :
    (mergeResult orders r).map Order.id = orders.map Order.id := by
  cases r with
  | error e => rfl
  | ok u =>
    induction orders with
    | nil => rfl
    | cons o rest ih =>
      rw [mergeResult_ok_cons]
      by_cases h : (o.id == u.id) = true
      · have hid : o.id = u.id := by simpa using h
        simp [h, hid]
      · simp [h, ih]

theorem mergeResults_map_id (orders : List Order) (rs : List PollResult) :
    (mergeResults orders rs).map Order.id = orders.map Order.id := by
  induction rs generalizing orders with
  | nil => rfl
  | cons r rest ih =>
    rw [mergeResults_cons]
    exact (ih (mergeResult orders r)).trans (mergeResult_map_id orders r)

theorem mergeResults_length (orders : List Order) (rs : List PollResult) :
    (mergeResults orders rs).length = orders.length := by
  have h := congrArg List.length (mergeResults_map_id orders rs)
  simpa using h

/-! ### Rejected results are skipped and leave their record untouched -/

/-- A settled result is fulfilled when the request succeeded. -/
def isFulfilled (r : PollResult) : Bool :=
  match r with
  | Except.ok _ => true
  | Except.error _ => false

theorem mergeResults_filter_fulfilled (orders : List Order) (rs : List PollResult) :
    mergeResults orders rs = mergeResults orders (rs.filter isFulfilled) := by
  induction rs generalizing orders with
  | nil => rfl
  | cons r rest ih =>
    cases r with
    | ok u =>
      rw [mergeResults_cons]
      have hf : (Except.ok u :: rest).filter isFulfilled
          = Except.ok u :: rest.filter isFulfilled := by
        simp [List.filter, isFulfilled]
      rw [hf, mergeResults_cons]
      exact ih (mergeResult orders (Except.ok u))
    | error e =>
      rw [mergeResults_cons, mergeResult_error]
      have hf : (Except.error e :: rest).filter isFulfilled = rest.filter isFulfilled := by
        simp [List.filter, isFulfilled]
      rw [hf]
      exact ih orders

theorem mergeResult_ok_getElem?_ne (u : Order) (orders : List Order) (i : Nat) (o : Order)
    (ho : orders[i]? = some o) (hne : o.id ≠ u.id) :
    (mergeResult orders (Except.ok u))[i]? = some o := by
  induction orders generalizing i with
  | nil => simp at ho
  | cons o2 rest ih =>
    rw [mergeResult_ok_cons]
    by_cases h : (o2.id == u.id) = true
    · simp only [h, if_true]
      cases i with
      | zero =>
        have : o2 = o := by simpa using ho
        subst this
        exact absurd (by simpa using h) hne
      | succ n => simpa using ho
    · simp only [h, if_false]
      cases i with
      | zero => simpa using ho
      | succ n =>
        have ho2 : rest[n]? = some o := by simpa using ho
        simpa using ih n ho2

theorem mergeResults_getElem?_ne (orders : List Order) (rs : List PollResult)
    (i : Nat) (o : Order) (ho : orders[i]? = some o)
    (hne : ∀ u : Order, Except.ok u ∈ rs → u.id ≠ o.id) :
    (mergeResults orders rs)[i]? = some o := by
  induction rs generalizing orders with
  | nil => exact ho
  | cons r rest ih =>
    rw [mergeResults_cons]
    have h1 : (mergeResult orders r)[i]? = some o := by
      cases r with
      | error e => exact ho
      | ok u =>
        exact mergeResult_ok_getElem?_ne u orders i o ho
          (fun he => hne u (List.mem_cons_self _ _) he.symm)
    exact ih (mergeResult orders r) h1 (fun u hu => hne u (List.mem_cons_of_mem _ hu))

/-! ### A fulfilled response for a cached id overwrites that record wholesale -/

theorem mergeResult_ok_set (u o : Order) (orders : List Order) (i : Nat)
    (hn : (orders.map Order.id).Nodup) (ho : orders[i]? = some o) (hid : o.id = u.id) :
    mergeResult orders (Except.ok u) = orders.set i u := by
  induction orders generalizing i with
  | nil => simp at ho
  | cons o2 rest ih =>
    rw [mergeResult_ok_cons]
    cases i with
    | zero =>
      have h2 : o2 = o := by simpa using ho
      subst h2
      simp [hid]
    | succ n =>
      have ho2 : rest[n]? = some o := by simpa using ho
      have hmem : o ∈ rest := List.getElem?_mem ho2
      have hcons : (∀ x ∈ rest, ¬ x.id = o2.id) ∧ (rest.map Order.id).Nodup := by
        simpa [List.nodup_cons] using hn
      by_cases h3 : (o2.id == u.id) = true
      · have hb2 : o2.id = u.id := by simpa using h3
        exact absurd (hid.trans hb2.symm) (hcons.1 o hmem)
      · have hne : (o2.id == u.id) = false := by simpa using h3
        simp only [hne, if_false]
        rw [ih n hcons.2 ho2]
        rfl

theorem mergeResult_ok_not_mem (orders : List Order) (u : Order)
    (h : ∀ o ∈ orders, o.id ≠ u.id) :
    mergeResult orders (Except.ok u) = orders := by
  induction orders with
  | nil => rfl
  | cons o rest ih =>
    rw [mergeResult_ok_cons]
    have hne : (o.id == u.id) = false := by
      simpa using h o (List.mem_cons_self _ _)
    simp [hne]
    exact ih (fun o2 hm => h o2 (List.mem_cons_of_mem _ hm))

/-! ### addOrder and the id sequence -/

theorem addOrderList_of_mem (orders : List Order) (o : Order)
    (h : ∃ o2 ∈ orders, o2.id = o.id) : addOrderList orders o = orders := by
  unfold addOrderList
  have ha : orders.any (fun o2 => o2.id == o.id) = true := by
    obtain ⟨o2, hm, hid⟩ := h
    exact List.any_eq_true.mpr ⟨o2, hm, by simpa using hid⟩
  simp [ha]

theorem addOrderList_of_not_mem (orders : List Order) (o : Order)
    (h : ∀ o2 ∈ orders, o2.id ≠ o.id) : addOrderList orders o = orders ++ [o] := by
  unfold addOrderList
  have ha : orders.any (fun o2 => o2.id == o.id) = false := by
    by_contra hb
    have ht : orders.any (fun o2 => o2.id == o.id) = true := by
      cases h3 : orders.any (fun o2 => o2.id == o.id)
      · exact absurd h3 hb
      · rfl
    obtain ⟨o2, hm, hid⟩ := List.any_eq_true.mp ht
    exact h o2 hm (by simpa using hid)
  simp [ha]

theorem addOrderList_map_id_nodup (orders : List Order) (o : Order)
    (h : (orders.map Order.id).Nodup) : ((addOrderList orders o).map Order.id).Nodup := by
  by_cases hc : ∃ o2 ∈ orders, o2.id = o.id
  · rw [addOrderList_of_mem orders o hc]
    exact h
  · push_neg at hc
    rw [addOrderList_of_not_mem orders o hc]
    rw [List.map_append]
    rw [List.nodup_append]
    refine ⟨h, by simp, ?_⟩
    intro x hx hx2
    have hx3 : x = o.id := by simpa using hx2
    obtain ⟨o2, hm2, hid2⟩ := List.mem_map.mp hx
    exact hc o2 hm2 (hid2.trans hx3)

theorem addOrderList_getElem? (orders : List Order) (o : Order) (j : Nat) (o2 : Order)
    (h : orders[j]? = some o2) : (addOrderList orders o)[j]? = some o2 := by
  unfold addOrderList
  by_cases ha : orders.any (fun o3 => o3.id == o.id) = true
  · simp [ha, h]
  · have ha2 : orders.any (fun o3 => o3.id == o.id) = false := by
      cases h3 : orders.any (fun o3 => o3.id == o.id)
      · rfl
      · exact absurd h3 ha
    have hlt : j < orders.length := (List.getElem?_eq_some.mp h).1
    simp only [ha2, Bool.false_eq_true, if_false]
    rw [List.getElem?_append_left hlt]
    exact h

/-! ### Requests of a tick: one per active order, none per terminal order -/

theorem stepRequests_tick (w : World) (h : w.store.pollingInterval.isSome) :
    stepRequests w Act.tick = (activeOrders w.store.orders).map (fun o => o.id) := by
  unfold stepRequests
  simp [h, pollTick_requests]

theorem count_id_activeOrders (orders : List Order) (o : Order)
    (hn : (orders.map Order.id).Nodup) (hm : o ∈ orders) :
    ((activeOrders orders).map (fun o2 => o2.id)).count o.id
      = if isActive o then 1 else 0 := by
  have hperm : (((orders.filter isActive).map Order.id)
      ++ ((orders.filter (fun x => ! isActive x)).map Order.id)).Perm
        (orders.map Order.id) := by
    have h2 := (List.filter_append_perm isActive orders).map Order.id
    simpa [List.map_append] using h2
  have hcount : ((orders.filter isActive).map Order.id).count o.id
      + ((orders.filter (fun x => ! isActive x)).map Order.id).count o.id
      = (orders.map Order.id).count o.id := by
    have h3 := hperm.count_eq o.id
    simpa [List.count_append] using h3
  have hle : (orders.map Order.id).count o.id ≤ 1 :=
    List.nodup_iff_count_le_one.mp hn o.id
  have hmap : ((activeOrders orders).map (fun o2 => o2.id))
      = (orders.filter isActive).map Order.id := rfl
  rw [hmap]
  by_cases ha : isActive o = true
  · have hmemA : o.id ∈ (orders.filter isActive).map Order.id :=
      List.mem_map_of_mem Order.id (List.mem_filter.mpr ⟨hm, ha⟩)
    have hposA := List.count_pos_iff.mpr hmemA
    simp only [ha, if_true]
    omega
  · have ha4 : isActive o = false := by
      cases h4 : isActive o
      · rfl
      · exact absurd h4 ha
    have ha2 : (! isActive o) = true := by simp [ha4]
    have hmemN : o.id ∈ (orders.filter (fun x => ! isActive x)).map Order.id :=
      List.mem_map_of_mem Order.id (List.mem_filter.mpr ⟨hm, ha2⟩)
    have hposN := List.count_pos_iff.mpr hmemN
    simp only [ha4, Bool.false_eq_true, if_false]
    omega

/-! ### Running event sequences, and invariants preserved by every step -/

theorem run_nil (w : World) : run w [] = w := rfl

theorem run_cons (w : World) (a : Act) (rest : List Act) :
    run w (a :: rest) = run (step w a) rest := rfl

theorem step_add (w : World) (o : Order) : step w (Act.add o) = addOrder w o := rfl

theorem step_resolve (w : World) (i : Nat) (rs : List PollResult) :
    step w (Act.resolve i rs) = resolveBatch w i rs := rfl

theorem step_stop (w : World) : step w Act.stop = stopPolling w := rfl

theorem run_preserves {P : World → Prop} (h : ∀ w a, P w → P (step w a)) :
    ∀ (acts : List Act) (w : World), P w → P (run w acts) := by
  intro acts
  induction acts with
  | nil => intro w hw; exact hw
  | cons a rest ih =>
    intro w hw
    rw [run_cons]
    exact ih (step w a) (h w a hw)

/-- The cache holds at most one record per id. -/
def UniqueIds (w : World) : Prop := (w.store.orders.map Order.id).Nodup

theorem resolveBatch_map_id (w : World) (i : Nat) (rs : List PollResult) :
    ((resolveBatch w i rs).store.orders).map Order.id
      = w.store.orders.map Order.id := by
  unfold resolveBatch
  cases w.inflight[i]? with
  | none => rfl
  | some batch =>
    by_cases h : rs.length = batch.length
    · simp [h, mergeResults_map_id]
    · simp [h]

theorem step_uniqueIds (w : World) (a : Act) (h : UniqueIds w) : UniqueIds (step w a) := by
  cases a with
  | add o =>
    show ((step w (Act.add o)).store.orders.map Order.id).Nodup
    rw [step_add, addOrder_orders]
    exact addOrderList_map_id_nodup _ _ h
  | tick =>
    show ((step w Act.tick).store.orders.map Order.id).Nodup
    rw [step_tick_orders]
    exact h
  | resolve i rs =>
    show ((step w (Act.resolve i rs)).store.orders.map Order.id).Nodup
    rw [step_resolve, resolveBatch_map_id]
    exact h
  | stop =>
    show ((step w Act.stop).store.orders.map Order.id).Nodup
    rw [step_stop, stopPolling_orders]
    exact h

theorem reachable_uniqueIds (w : World) (h : Reachable w) : UniqueIds w := by
  obtain ⟨acts, hacts⟩ := h
  rw [← hacts]
  exact run_preserves step_uniqueIds acts initWorld (by simp [UniqueIds, initWorld, initStore])

/-! ### A single shared timer handle -/

/-- The handles created and not yet cleared are exactly the one stored in
`pollingInterval` (when set). -/
def TimerInv (w : World) : Prop := w.activeTimers = w.store.pollingInterval.toList

theorem startPolling_timerInv (w : World) (h : TimerInv w) : TimerInv (startPolling w) := by
  unfold TimerInv startPolling
  cases hp : w.store.pollingInterval with
  | some v => exact h
  | none =>
    have h2 : w.activeTimers = [] := by
      unfold TimerInv at h
      rw [hp] at h
      simpa using h
    simp [h2]

theorem stopPolling_timerInv (w : World) (h : TimerInv w) : TimerInv (stopPolling w) := by
  unfold TimerInv stopPolling
  cases hp : w.store.pollingInterval with
  | some v =>
    have h2 : w.activeTimers = [v] := by
      unfold TimerInv at h
      rw [hp] at h
      simpa using h
    simp [h2]
  | none => exact h

theorem step_timerInv (w : World) (a : Act) (h : TimerInv w) : TimerInv (step w a) := by
  cases a with
  | add o =>
    rw [step_add]
    unfold addOrder
    apply startPolling_timerInv
    exact h
  | tick =>
    show TimerInv (if w.store.pollingInterval.isSome then (pollTick w).1 else w)
    by_cases hp : w.store.pollingInterval.isSome
    · simp only [hp, if_true]
      unfold pollTick
      by_cases hl : (activeOrders w.store.orders).length == 0
      · simp only [hl, if_pos]
        exact stopPolling_timerInv w h
      · simp [hl]
        exact h
    · simp [hp, h]
  | resolve i rs =>
    rw [step_resolve]
    unfold TimerInv resolveBatch
    cases w.inflight[i]? with
    | none => exact h
    | some batch =>
      by_cases hlen : rs.length = batch.length
      · simp [hlen]
        exact h
      · simp [hlen]
        exact h
  | stop =>
    rw [step_stop]
    exact stopPolling_timerInv w h

theorem reachable_timerInv (w : World) (h : Reachable w) : TimerInv w := by
  obtain ⟨acts, hacts⟩ := h
  rw [← hacts]
  exact run_preserves step_timerInv acts initWorld (by simp [TimerInv, initWorld, initStore])

theorem reachable_activeTimers_le_one (w : World) (h : Reachable w) :
    w.activeTimers.length ≤ 1 := by
  have h2 := reachable_timerInv w h
  unfold TimerInv at h2
  rw [h2]
  cases w.store.pollingInterval <;> simp

/-! ### Sequences of addOrder calls -/

theorem run_adds_orders (os : List Order) (w : World) :
    (run w (os.map Act.add)).store.orders = os.foldl addOrderList w.store.orders := by
  induction os generalizing w with
  | nil => rfl
  | cons o rest ih =>
    simp only [List.map, run_cons, step_add, List.foldl_cons]
    rw [ih (addOrder w o), addOrder_orders]

theorem addOrderList_toFinset (orders : List Order) (o : Order) :
    ((addOrderList orders o).map Order.id).toFinset
      = insert o.id (orders.map Order.id).toFinset := by
  by_cases hc : ∃ o2 ∈ orders, o2.id = o.id
  · rw [addOrderList_of_mem orders o hc]
    obtain ⟨o2, hm, hid⟩ := hc
    have hmem : o.id ∈ (orders.map Order.id).toFinset := by
      rw [List.mem_toFinset]
      exact List.mem_map.mpr ⟨o2, hm, hid⟩
    rw [Finset.insert_eq_self.mpr hmem]
  · push_neg at hc
    rw [addOrderList_of_not_mem orders o hc]
    rw [List.map_append, List.toFinset_append]
    simp [Finset.union_comm, Finset.insert_eq]

theorem foldl_addOrderList_toFinset (os : List Order) (l : List Order) :
    ((os.foldl addOrderList l).map Order.id).toFinset
      = (l.map Order.id).toFinset ∪ (os.map Order.id).toFinset := by
  induction os generalizing l with
  | nil => simp
  | cons o rest ih =>
    simp only [List.foldl_cons]
    rw [ih (addOrderList l o), addOrderList_toFinset]
    simp only [List.map, List.toFinset_cons]
    rw [Finset.insert_union, Finset.union_insert]

theorem foldl_addOrderList_nodup (os l : List Order)
    (h : (l.map Order.id).Nodup) : ((os.foldl addOrderList l).map Order.id).Nodup := by
  induction os generalizing l with
  | nil => exact h
  | cons o rest ih =>
    simp only [List.foldl_cons]
    exact ih _ (addOrderList_map_id_nodup l o h)

theorem run_adds_length (os : List Order) :
    (run initWorld (os.map Act.add)).store.orders.length
      = (os.map Order.id).toFinset.card := by
  rw [run_adds_orders]
  have hinit : initWorld.store.orders = [] := rfl
  rw [hinit]
  have hn : ((os.foldl addOrderList ([] : List Order)).map Order.id).Nodup :=
    foldl_addOrderList_nodup os [] (by simp)
  have hf := foldl_addOrderList_toFinset os []
  have hcard := List.toFinset_card_of_nodup hn
  have hlen : ((os.foldl addOrderList ([] : List Order)).map Order.id).length
      = (os.foldl addOrderList ([] : List Order)).length := List.length_map _ _
  rw [← hlen, ← hcard, hf]
  simp

/-! ### Frame lemmas for the step relation -/

theorem step_getElem?_of_not_resolve (w : World) (a : Act)
    (hna : ∀ (i : Nat) (rs : List PollResult), a ≠ Act.resolve i rs)
    (j : Nat) (o : Order) (h : w.store.orders[j]? = some o) :
    (step w a).store.orders[j]? = some o := by
  cases a with
  | add o2 =>
    rw [step_add, addOrder_orders]
    exact addOrderList_getElem? _ _ _ _ h
  | tick =>
    rw [step_tick_orders]
    exact h
  | resolve i rs => exact absurd rfl (hna i rs)
  | stop =>
    rw [step_stop, stopPolling_orders]
    exact h

theorem step_mem_of_not_resolve (w : World) (a : Act)
    (hna : ∀ (i : Nat) (rs : List PollResult), a ≠ Act.resolve i rs)
    (o : Order) (h : o ∈ w.store.orders) : o ∈ (step w a).store.orders := by
  obtain ⟨j, hj⟩ := List.getElem?_of_mem h
  exact List.getElem?_mem (step_getElem?_of_not_resolve w a hna j o hj)

theorem step_tick_stops (w : World) (hp : w.store.pollingInterval.isSome)
    (he : activeOrders w.store.orders = []) :
    stepRequests w Act.tick = [] ∧ (step w Act.tick).store.pollingInterval = none := by
  constructor
  · rw [stepRequests_tick w hp, he]
    rfl
  · show (if w.store.pollingInterval.isSome then (pollTick w).1
      else w).store.pollingInterval = none
    simp only [hp, if_true]
    simp [pollTick, he, stopPolling_pollingInterval]

/-! ### Once stopped, nothing but addOrder restarts the poller -/

theorem no_requests_when_stopped (acts : List Act) :
    ∀ w : World, w.store.pollingInterval = none →
    (∀ a ∈ acts, ∀ o : Order, a ≠ Act.add o) →
    runRequests w acts = [] ∧ (run w acts).store.pollingInterval = none := by
  induction acts with
  | nil =>
    intro w h _
    exact ⟨rfl, h⟩
  | cons a rest ih =>
    intro w h hno
    have hsome : w.store.pollingInterval.isSome = false := by
      rw [h]
      rfl
    have hstep : (step w a).store.pollingInterval = none ∧ stepRequests w a = [] := by
      cases a with
      | add o => exact absurd rfl (hno _ (List.mem_cons_self _ _) o)
      | tick =>
        constructor
        · show (if w.store.pollingInterval.isSome then (pollTick w).1
            else w).store.pollingInterval = none
          rw [hsome]
          simpa using h
        · show (if w.store.pollingInterval.isSome then (pollTick w).2 else []) = []
          rw [hsome]
          rfl
      | resolve i rs =>
        constructor
        · rw [step_resolve, resolveBatch_pollingInterval]
          exact h
        · rfl
      | stop =>
        constructor
        · rw [step_stop, stopPolling_pollingInterval]
        · rfl
    have ht := ih (step w a) hstep.1 (fun a2 hm => hno a2 (List.mem_cons_of_mem _ hm))
    constructor
    · show stepRequests w a ++ runRequests (step w a) rest = []
      rw [hstep.2, ht.1]
      rfl
    · rw [run_cons]
      exact ht.2

/-! ### A terminal record is never requested while no response settles -/

theorem no_requests_for_terminal (acts : List Act) :
    ∀ (w : World) (o : Order), (w.store.orders.map Order.id).Nodup →
    o ∈ w.store.orders → isActive o = false →
    (∀ a ∈ acts, ∀ (i : Nat) (rs : List PollResult), a ≠ Act.resolve i rs) →
    o.id ∉ runRequests w acts := by
  induction acts with
  | nil =>
    intro w o _ _ _ _
    simp [runRequests]
  | cons a rest ih =>
    intro w o hn hm ha hno
    have hna : ∀ (i : Nat) (rs : List PollResult), a ≠ Act.resolve i rs :=
      hno a (List.mem_cons_self _ _)
    have hhead : o.id ∉ stepRequests w a := by
      cases a with
      | add o2 => simp [stepRequests]
      | tick =>
        by_cases hp : w.store.pollingInterval.isSome
        · rw [stepRequests_tick w hp]
          apply List.count_eq_zero.mp
          rw [count_id_activeOrders w.store.orders o hn hm]
          simp [ha]
        · have hp2 : w.store.pollingInterval.isSome = false := by
            cases h4 : w.store.pollingInterval.isSome
            · rfl
            · exact absurd h4 hp
          show o.id ∉ (if w.store.pollingInterval.isSome then (pollTick w).2 else [])
          rw [hp2]
          simp
      | resolve i rs => exact absurd rfl (hna i rs)
      | stop => simp [stepRequests]
    have htail : o.id ∉ runRequests (step w a) rest := by
      apply ih (step w a) o (step_uniqueIds w a hn)
        (step_mem_of_not_resolve w a hna o hm) ha
        (fun a2 hm2 => hno a2 (List.mem_cons_of_mem _ hm2))
    show o.id ∉ stepRequests w a ++ runRequests (step w a) rest
    rw [List.mem_append]
    intro hc
    cases hc with
    | inl hc2 => exact hhead hc2
    | inr hc2 => exact htail hc2

/-! ### Sample order records for concrete scenarios -/

/-- A non-terminal order with id 1 (freshly submitted). -/
def oA : Order :=
  { id := 1, status := "SUBMITTED", quantity := 10, quantityFilled := 0, parentId := none }

/-- The same order with id 1 after a fill: terminal status, updated fields. -/
def oAF : Order :=
  { id := 1, status := "FILLED", quantity := 10, quantityFilled := 10, parentId := none }

/-- A non-terminal order with id 2. -/
def oB : Order :=
  { id := 2, status := "SUBMITTED", quantity := 5, quantityFilled := 0, parentId := none }

/-- A terminal (filled) order with id 2. -/
def oBF : Order :=
  { id := 2, status := "FILLED", quantity := 5, quantityFilled := 5, parentId := none }

theorem activeOrders_addOrderList (orders : List Order) (o : Order)
    (h1 : activeOrders orders = []) (h2 : isActive o = false) :
    activeOrders (addOrderList orders o) = [] := by
  unfold addOrderList
  by_cases ha : orders.any (fun o2 => o2.id == o.id) = true
  · simp only [ha, if_true]
    exact h1
  · have ha2 : orders.any (fun o2 => o2.id == o.id) = false := by
      cases h4 : orders.any (fun o2 => o2.id == o.id)
      · rfl
      · exact absurd h4 ha
    simp only [ha2, Bool.false_eq_true, if_false]
    unfold activeOrders at *
    rw [List.filter_append, h1]
    simp [h2]

/-! ### The claims -/

/-- C1: the cache contains at most one record per order id.  `addOrder` with
an id already present leaves the order list unchanged; for every sequence of
`addOrder` calls the cache size equals the number of distinct ids in the
sequence; and in every state reachable by interleaved `addOrder` calls and
poll-merge settlements the cached ids are pairwise distinct. -/
theorem addOrder_cache_unique_per_id :
    (∀ (w : World) (o : Order), (∃ o2 ∈ w.store.orders, o2.id = o.id) →
      (addOrder w o).store.orders = w.store.orders)
    ∧ (∀ os : List Order,
        (run initWorld (os.map Act.add)).store.orders.length
          = (os.map Order.id).toFinset.card)
    ∧ (∀ w : World, Reachable w → (w.store.orders.map Order.id).Nodup) := by
  refine ⟨?_, run_adds_length, reachable_uniqueIds⟩
  intro w o h
  rw [addOrder_orders]
  exact addOrderList_of_mem _ _ h

/-- Witness for C1: adding a second record with the already-cached id 1
leaves the cache unchanged. -/
theorem addOrder_cache_unique_per_id_witness :
    (addOrder (run initWorld [Act.add oA]) oAF).store.orders
      = (run initWorld [Act.add oA]).store.orders :=
  addOrder_cache_unique_per_id.1 (run initWorld [Act.add oA]) oAF
    ⟨oA, by decide, by decide⟩

/-- C3: a successful poll response for a cached order overwrites the cached
record wholesale.  With pairwise-distinct cached ids, merging a fulfilled
response `u` whose id matches the record at position `i` turns the cache
into `orders.set i u`: the stored record afterwards is exactly the response
body, with no field-level merging with the previous record. -/
theorem poll_merge_overwrites_wholesale :
    ∀ (orders : List Order) (u o : Order) (i : Nat),
      (orders.map Order.id).Nodup → orders[i]? = some o → o.id = u.id →
      mergeResult orders (Except.ok u) = orders.set i u
      ∧ (mergeResult orders (Except.ok u))[i]? = some u := by
  intro orders u o i hn ho hid
  have h1 := mergeResult_ok_set u o orders i hn ho hid
  refine ⟨h1, ?_⟩
  rw [h1]
  exact List.getElem?_set_self ((List.getElem?_eq_some.mp ho).1)

/-- Witness for C3: the fulfilled response `oAF` for cached order id 1
replaces the cached `oA` record by the response body, all fields included. -/
theorem poll_merge_overwrites_wholesale_witness :
    mergeResult [oA] (Except.ok oAF) = [oA].set 0 oAF
    ∧ (mergeResult [oA] (Except.ok oAF))[0]? = some oAF :=
  poll_merge_overwrites_wholesale [oA] oAF oA 0 (by decide) (by decide) (by decide)

/-- C5: each outcome of a settled batch is handled independently.  The merge
of a batch equals the merge of just its fulfilled results, so a rejected
request never aborts the batch and never alters the updates of the
fulfilled ones; and a cached record for which no fulfilled result carries
its id is left unchanged by the whole merge step. -/
theorem poll_failures_handled_independently :
    (∀ (orders : List Order) (rs : List PollResult),
      mergeResults orders rs = mergeResults orders (rs.filter isFulfilled))
    ∧ (∀ (orders : List Order) (rs : List PollResult) (i : Nat) (o : Order),
        orders[i]? = some o → (∀ u : Order, Except.ok u ∈ rs → u.id ≠ o.id) →
        (mergeResults orders rs)[i]? = some o) :=
  ⟨mergeResults_filter_fulfilled, mergeResults_getElem?_ne⟩

/-- Witness for C5: in a batch where the request for order id 1 rejected and
the one for id 2 fulfilled, the cached record for id 1 is unchanged. -/
theorem poll_failures_handled_independently_witness :
    (mergeResults [oA, oB] [Except.error (), Except.ok oBF])[0]? = some oA :=
  poll_failures_handled_independently.2 [oA, oB]
    [Except.error (), Except.ok oBF] 0 oA (by decide)
    (by
      intro u hu
      cases hu with
      | tail _ hu2 =>
        cases hu2 with
        | head => decide
        | tail _ hu3 => cases hu3)

/-- C9: the merge step changes only field values of records already in the
cache: the id sequence (set and insertion order of cached ids) is unchanged
by any merge, a fulfilled response matching no cached id is silently
discarded without inserting a record, a tick never changes the order list,
and every event other than an `addOrder` call preserves the cache size, so
only `addOrder` can grow the cache. -/
theorem poll_merge_frame :
    (∀ (orders : List Order) (rs : List PollResult),
      (mergeResults orders rs).map Order.id = orders.map Order.id)
    ∧ (∀ (orders : List Order) (u : Order),
        (∀ o ∈ orders, o.id ≠ u.id) → mergeResult orders (Except.ok u) = orders)
    ∧ (∀ w : World, (step w Act.tick).store.orders = w.store.orders)
    ∧ (∀ (w : World) (a : Act), (∀ o : Order, a ≠ Act.add o) →
        (step w a).store.orders.length = w.store.orders.length) := by
  refine ⟨mergeResults_map_id, mergeResult_ok_not_mem, step_tick_orders, ?_⟩
  intro w a hna
  cases a with
  | add o => exact absurd rfl (hna o)
  | tick => rw [step_tick_orders]
  | resolve i rs =>
    rw [step_resolve]
    have h := congrArg List.length (resolveBatch_map_id w i rs)
    simpa using h
  | stop => rw [step_stop, stopPolling_orders]

/-- Witness for C9: a fulfilled response with uncached id 2 is discarded. -/
theorem poll_merge_frame_witness :
    mergeResult [oA] (Except.ok oBF) = [oA] :=
  poll_merge_frame.2.1 [oA] oBF
    (by
      intro o ho
      cases ho with
      | head => decide
      | tail _ h2 => cases h2)

/-- C2 (amended): at the time a poll tick runs, every cached order with a
terminal status is excluded from the outgoing batch and every non-terminal
cached order gets exactly one status-fetch request; and once a record's
status is terminal, no subsequent poll tick includes it as long as no
in-flight response settles in between — a stale settlement can revert the
status to non-terminal, after which later ticks request the order again. -/
theorem poll_batch_excludes_terminal :
    (∀ w : World, (w.store.orders.map Order.id).Nodup →
      w.store.pollingInterval.isSome →
      (∀ o ∈ w.store.orders, isActive o = false → o.id ∉ stepRequests w Act.tick)
      ∧ (∀ o ∈ w.store.orders, isActive o = true →
          (stepRequests w Act.tick).count o.id = 1))
    ∧ (∀ (w : World) (o : Order) (acts : List Act),
        (w.store.orders.map Order.id).Nodup → o ∈ w.store.orders →
        isActive o = false →
        (∀ a ∈ acts, ∀ (i : Nat) (rs : List PollResult), a ≠ Act.resolve i rs) →
        o.id ∉ runRequests w acts) := by
  constructor
  · intro w hn hp
    constructor
    · intro o hm ha
      rw [stepRequests_tick w hp]
      apply List.count_eq_zero.mp
      rw [count_id_activeOrders w.store.orders o hn hm]
      simp [ha]
    · intro o hm ha
      rw [stepRequests_tick w hp]
      rw [count_id_activeOrders w.store.orders o hn hm]
      simp [ha]
  · intro w o acts hn hm ha hno
    exact no_requests_for_terminal acts w o hn hm ha hno

/-- C2 counterexample: with two overlapping ticks for order id 1, the first
settlement makes the cached record terminal (`FILLED`), yet after the
second, stale settlement a subsequent poll tick puts id 1 into the outgoing
batch again — so a tick after the status became terminal does include it. -/
theorem poll_batch_excludes_terminal_counterexample :
    (run initWorld [Act.add oA, Act.tick, Act.tick,
        Act.resolve 0 [Except.ok oAF]]).store.orders = [oAF]
    ∧ terminalStatuses.contains oAF.status = true
    ∧ oAF.id ∈ stepRequests
        (run initWorld [Act.add oA, Act.tick, Act.tick,
          Act.resolve 0 [Except.ok oAF], Act.resolve 0 [Except.ok oA]]) Act.tick := by
  decide

/-- Witness for C2 (amended): with non-terminal id 1 and terminal id 2
cached, the tick's batch does not request id 2. -/
theorem poll_batch_excludes_terminal_witness :
    oBF.id ∉ stepRequests (run initWorld [Act.add oA, Act.add oBF]) Act.tick :=
  ((poll_batch_excludes_terminal.1 (run initWorld [Act.add oA, Act.add oBF])
      (by decide) (by decide)).1) oBF (by decide) (by decide)

/-- C4: a poll tick that finds no non-terminal cached order issues no
status-fetch requests and stops the timer; and from a stopped state, an
event sequence containing no `addOrder` call issues no further status-fetch
requests and leaves the poller stopped. -/
theorem empty_active_set_stops_polling :
    (∀ w : World, w.store.pollingInterval.isSome →
      activeOrders w.store.orders = [] →
      stepRequests w Act.tick = [] ∧ (step w Act.tick).store.pollingInterval = none)
    ∧ (∀ (w : World) (acts : List Act), w.store.pollingInterval = none →
        (∀ a ∈ acts, ∀ o : Order, a ≠ Act.add o) →
        runRequests w acts = [] ∧ (run w acts).store.pollingInterval = none) :=
  ⟨fun w hp he => step_tick_stops w hp he,
   fun w acts h hno => no_requests_when_stopped acts w h hno⟩

/-- Witness for C4: with only the terminal order id 1 cached, the tick
issues no requests and stops the timer. -/
theorem empty_active_set_stops_polling_witness :
    stepRequests (run initWorld [Act.add oAF]) Act.tick = []
    ∧ (step (run initWorld [Act.add oAF]) Act.tick).store.pollingInterval = none :=
  empty_active_set_stops_polling.1 (run initWorld [Act.add oAF]) (by decide) (by decide)

/-- C6 counterexample: a reachable state (order id 2 added, two overlapping
ticks, first settlement `FILLED`) holds a terminal cached record, and the
settlement of the second, stale in-flight response is a step that changes
its status back to the non-terminal `SUBMITTED`. -/
theorem status_monotonic_counterexample :
    (run initWorld [Act.add oB, Act.tick, Act.tick,
        Act.resolve 0 [Except.ok oBF]]).store.orders = [oBF]
    ∧ terminalStatuses.contains oBF.status = true
    ∧ (step (run initWorld [Act.add oB, Act.tick, Act.tick,
          Act.resolve 0 [Except.ok oBF]])
        (Act.resolve 0 [Except.ok oB])).store.orders = [oB]
    ∧ terminalStatuses.contains oB.status = false := by
  decide

/-- C6 (amended): no step other than the settlement of an in-flight response
changes an existing cached record — in particular `addOrder` calls, poll
ticks and `stopPolling` never move a terminal record back to non-terminal —
and settlement steps preserve every record's id; but a settlement applying a
stale fulfilled response may overwrite a terminal status with a non-terminal
one (last response to settle wins), so the monotone transition holds only in
the absence of overlapping in-flight responses. -/
theorem status_monotonic_amended :
    (∀ (w : World) (a : Act),
      (∀ (i : Nat) (rs : List PollResult), a ≠ Act.resolve i rs) →
      ∀ (j : Nat) (o : Order), w.store.orders[j]? = some o →
        (step w a).store.orders[j]? = some o)
    ∧ (∀ (w : World) (i : Nat) (rs : List PollResult),
        ((step w (Act.resolve i rs)).store.orders).map Order.id
          = w.store.orders.map Order.id) := by
  refine ⟨step_getElem?_of_not_resolve, ?_⟩
  intro w i rs
  rw [step_resolve]
  exact resolveBatch_map_id w i rs

/-- Witness for C6 (amended): a tick leaves the terminal cached record with
id 2 exactly in place. -/
theorem status_monotonic_amended_witness :
    (step (run initWorld [Act.add oBF]) Act.tick).store.orders[0]? = some oBF :=
  status_monotonic_amended.1 (run initWorld [Act.add oBF]) Act.tick
    (fun i rs h => Act.noConfusion h) 0 oBF (by decide)

/-- C7 counterexample: after `addOrder`, one tick and `stopPolling`, the
timer is stopped while the batch for id 1 is still in flight; the
settlement of that in-flight response is nevertheless applied and changes
the cached record. -/
theorem stop_discards_inflight_counterexample :
    (run initWorld [Act.add oA, Act.tick, Act.stop]).store.pollingInterval = none
    ∧ (run initWorld [Act.add oA, Act.tick, Act.stop]).inflight = [[oA.id]]
    ∧ (run initWorld [Act.add oA, Act.tick, Act.stop]).store.orders = [oA]
    ∧ (run initWorld [Act.add oA, Act.tick, Act.stop,
        Act.resolve 0 [Except.ok oAF]]).store.orders = [oAF]
    ∧ oAF ≠ oA := by
  decide

/-- C7 (amended): `stopPolling` cancels the timer, so no further ticks
occur, but it does not cancel or discard in-flight requests: a response
that settles after the timer is stopped is still applied to the cache,
merging exactly as it would with the timer running, and the timer stays
stopped. -/
theorem stop_keeps_inflight_applied :
    ∀ (w : World) (i : Nat) (rs : List PollResult) (batch : List Nat),
      w.store.pollingInterval = none → w.inflight[i]? = some batch →
      rs.length = batch.length →
      (step w (Act.resolve i rs)).store.orders = mergeResults w.store.orders rs
      ∧ (step w (Act.resolve i rs)).store.pollingInterval = none := by
  intro w i rs batch hp hb hlen
  rw [step_resolve]
  constructor
  · unfold resolveBatch
    rw [hb]
    simp [hlen]
  · rw [resolveBatch_pollingInterval]
    exact hp

/-- Witness for C7 (amended): the in-flight response for id 1 settling
after `stopPolling` is merged into the cache. -/
theorem stop_keeps_inflight_applied_witness :
    (step (run initWorld [Act.add oA, Act.tick, Act.stop])
        (Act.resolve 0 [Except.ok oAF])).store.orders
      = mergeResults (run initWorld [Act.add oA, Act.tick, Act.stop]).store.orders
          [Except.ok oAF]
    ∧ (step (run initWorld [Act.add oA, Act.tick, Act.stop])
        (Act.resolve 0 [Except.ok oAF])).store.pollingInterval = none :=
  stop_keeps_inflight_applied (run initWorld [Act.add oA, Act.tick, Act.stop])
    0 [Except.ok oAF] [oA.id] (by decide) (by decide) (by decide)

/-- C8: `startPolling` and `stopPolling` are idempotent guards around one
shared timer handle: calling `startPolling` while a handle is set changes
nothing (in particular no second timer is created), calling `stopPolling`
while no handle is set changes nothing, and every reachable state has at
most one live timer handle. -/
theorem polling_guards_idempotent :
    (∀ (w : World) (h : Nat), w.store.pollingInterval = some h → startPolling w = w)
    ∧ (∀ w : World, w.store.pollingInterval = none → stopPolling w = w)
    ∧ (∀ w : World, Reachable w → w.activeTimers.length ≤ 1) := by
  refine ⟨?_, ?_, reachable_activeTimers_le_one⟩
  · intro w h hp
    unfold startPolling
    rw [hp]
  · intro w hp
    unfold stopPolling
    rw [hp]

/-- Witness for C8: starting while running is a no-op, stopping while idle
is a no-op, and a reachable state has at most one live timer. -/
theorem polling_guards_idempotent_witness :
    startPolling (run initWorld [Act.add oA]) = run initWorld [Act.add oA]
    ∧ stopPolling initWorld = initWorld
    ∧ (run initWorld [Act.add oA]).activeTimers.length ≤ 1 :=
  ⟨polling_guards_idempotent.1 (run initWorld [Act.add oA]) 1 (by decide),
   polling_guards_idempotent.2.1 initWorld (by decide),
   polling_guards_idempotent.2.2 (run initWorld [Act.add oA]) ⟨[Act.add oA], rfl⟩⟩

/-- C10: every `addOrder` call invokes `startPolling` unconditionally: the
timer is running afterwards, even on a duplicate-id no-op insert and even
when the added record's status is already terminal; in the terminal case
with no other active order the first tick then finds the active set empty,
issues zero requests, and stops the timer again. -/
theorem addOrder_always_starts_polling :
    (∀ (w : World) (o : Order), (addOrder w o).store.pollingInterval.isSome)
    ∧ (∀ (w : World) (o : Order), (∃ o2 ∈ w.store.orders, o2.id = o.id) →
        (addOrder w o).store.orders = w.store.orders
        ∧ (addOrder w o).store.pollingInterval.isSome)
    ∧ (∀ (w : World) (o : Order), isActive o = false →
        activeOrders w.store.orders = [] →
        (addOrder w o).store.pollingInterval.isSome
        ∧ stepRequests (addOrder w o) Act.tick = []
        ∧ (step (addOrder w o) Act.tick).store.pollingInterval = none) := by
  refine ⟨addOrder_pollingInterval_isSome, ?_, ?_⟩
  · intro w o h
    refine ⟨?_, addOrder_pollingInterval_isSome w o⟩
    rw [addOrder_orders]
    exact addOrderList_of_mem _ _ h
  · intro w o ha he
    have hact : activeOrders (addOrder w o).store.orders = [] := by
      rw [addOrder_orders]
      exact activeOrders_addOrderList _ _ he ha
    have hp := addOrder_pollingInterval_isSome w o
    exact ⟨hp, (step_tick_stops _ hp hact).1, (step_tick_stops _ hp hact).2⟩

/-- Witness for C10: adding the already-terminal order id 1 to the idle
initial store starts the timer; the next tick issues no requests and stops
it. -/
theorem addOrder_always_starts_polling_witness :
    (addOrder initWorld oAF).store.pollingInterval.isSome
    ∧ stepRequests (addOrder initWorld oAF) Act.tick = []
    ∧ (step (addOrder initWorld oAF) Act.tick).store.pollingInterval = none :=
  addOrder_always_starts_polling.2.2 initWorld oAF (by decide) (by decide)
